import Mathlib

/-!
A verification development for the YouTube content-coverage analyzer backend
(`src/backend/server.js`).  The JavaScript source is shallowly embedded:
strings are lists of characters (`Str`), JSON values are an inductive type,
asynchronous HTTP calls are parameters carrying the outcome of the call
(`Except Str _`), and a thrown exception is the `Except.error` branch.
JavaScript machine numbers appear in two places: `Math.round(sum/length)` is
modelled exactly on rationals with integer numerator (the scores) and the
`0/0 = NaN` case is the explicit `JsNum.nan` value; JSON number literals are
modelled as integers (the grammar the coverage scores use) so a fractional or
exponent literal is outside the model and parses as a failure.
-/

abbrev Str := List Char

/-- Whitespace recognised by JavaScript `trim`, `parseInt` and friends
(ASCII whitespace; the rare non-ASCII space code points are outside the
model). -/
def isJsSpace (c : Char) : Bool :=
  c == '\x20' || c == '\x09' || c == '\x0a' || c == '\x0d' || c == '\x0b' || c == '\x0c'

/-- Line terminators, which JavaScript `.` in a regular expression does not
match. -/
def isLineTerm (c : Char) : Bool :=
  c == '\x0a' || c == '\x0d' || c == ' ' || c == ' '

/-- Whitespace admitted between JSON tokens by `JSON.parse`. -/
def isJsonWs (c : Char) : Bool :=
  c == '\x20' || c == '\x09' || c == '\x0a' || c == '\x0d'

/-- `\w` of the video-id regular expression. -/
def isWordChar (c : Char) : Bool := c.isAlphanum || c == '_'

/-- The alphabet of YouTube video identifiers (and of the `[^#&?]` class as
restricted to identifiers): ASCII alphanumerics, `-` and `_`. -/
def isIdChar (c : Char) : Bool := c.isAlphanum || c == '_' || c == '-'

/-- Case-insensitive character comparison, as the `i` flag of
`/```json/gi` (ASCII folding). -/
def ciEq (a b : Char) : Bool := a.toLower == b.toLower

/-- Does `pat` match (case-insensitively) a prefix of `s`? -/
def matchesCI : List Char → Str → Bool
  | [], _ => true
  | _ :: _, [] => false
  | p :: ps, c :: cs => ciEq p c && matchesCI ps cs

/-- One left-to-right pass deleting every non-overlapping occurrence of `pat`,
i.e. `s.replace(/pat/gi, "")`.  Fuel-indexed so that the definition is
structurally recursive (the fuel is always at least the length of the list). -/
def removeAllAux (pat : List Char) : Nat → Str → Str
  | _, [] => []
  | 0, s => s
  | fuel + 1, c :: cs =>
    if matchesCI pat (c :: cs) then removeAllAux pat fuel (cs.drop (pat.length - 1))
    else c :: removeAllAux pat fuel cs

/-- `s.replace(/pat/gi, "")` (for the two patterns used by the source, `i`
is relevant only to ```` ```json ````; ```` ``` ```` has no letters, so the
case-insensitive match coincides with the exact one). -/
def removeAll (pat : List Char) (s : Str) : Str := removeAllAux pat s.length s

/-- JavaScript `String.prototype.trim`. -/
def jsTrim (s : Str) : Str :=
  ((s.dropWhile isJsSpace).reverse.dropWhile isJsSpace).reverse

/-- `server.js:134`: strip ```` ```json ```` (case-insensitively) and
```` ``` ```` markers, then trim. -/
def cleanText (s : Str) : Str :=
  jsTrim (removeAll "```".data (removeAll "```json".data s))

mutual
/-- JSON values as produced by `JSON.parse` (numbers restricted to
integers, see the header note). -/
inductive Json where
  | null : Json
  | bool (b : Bool) : Json
  | num (n : Int) : Json
  | str (s : Str) : Json
  | arr (items : JsonList) : Json
  | obj (fields : JsonFields) : Json
inductive JsonList where
  | nil : JsonList
  | cons (hd : Json) (tl : JsonList) : JsonList
inductive JsonFields where
  | nil : JsonFields
  | cons (key : Str) (val : Json) (tl : JsonFields) : JsonFields
end

def JsonList.toList : JsonList → List Json
  | .nil => []
  | .cons h t => h :: t.toList

def jsIsNull : Json → Bool
  | .null => true
  | _ => false

/-- JavaScript truthiness of a JSON value. -/
def jsTruthy : Json → Bool
  | .null => false
  | .bool b => b
  | .num n => n != 0
  | .str s => !s.isEmpty
  | .arr _ => true
  | .obj _ => true

/-- Truthiness of a possibly-`undefined` value (`none` is `undefined`). -/
def jsTruthyOpt : Option Json → Bool
  | none => false
  | some j => jsTruthy j

/-- Property lookup on a JavaScript object built by `JSON.parse`: the last
duplicate key wins. -/
def fieldsLookupLast : JsonFields → Str → Option Json
  | .nil, _ => none
  | .cons k v t, key =>
    match fieldsLookupLast t key with
    | some r => some r
    | none => if k = key then some v else none

/-- `value.key` property access: `undefined` (`none`) on non-objects and
missing keys.  (Access on `null` throws instead; callers handle that case
before calling this.) -/
def jsGetField : Json → Str → Option Json
  | .obj fs, key => fieldsLookupLast fs key
  | _, _ => none

mutual
/-- JavaScript `String(v)` string conversion of a JSON value. -/
def jsToString : Json → Str
  | .null => "null".data
  | .bool true => "true".data
  | .bool false => "false".data
  | .num n => (toString n).data
  | .str s => s
  | .arr items => jsToStringList items
  | .obj _ => "[object Object]".data
/-- `Array.prototype.toString`: elements joined by commas, `null` elements
becoming empty. -/
def jsToStringList : JsonList → Str
  | .nil => []
  | .cons h t =>
      (if jsIsNull h then [] else jsToString h) ++ jsToStringRest t
def jsToStringRest : JsonList → Str
  | .nil => []
  | .cons h t =>
      ',' :: ((if jsIsNull h then [] else jsToString h) ++ jsToStringRest t)
end

def decDigitVal (c : Char) : Option Nat :=
  if c.isDigit then some (c.toNat - 48) else none

def hexDigitVal (c : Char) : Option Nat :=
  if c.isDigit then some (c.toNat - 48)
  else if 'a' ≤ c && c ≤ 'f' then some (c.toNat - 87)
  else if 'A' ≤ c && c ≤ 'F' then some (c.toNat - 55)
  else none

/-- Accumulate the leading digits of `s` in the given base. -/
def digitsValue (base : Nat) (val : Char → Option Nat) : Str → Nat → Nat
  | [], acc => acc
  | c :: rest, acc =>
    match val c with
    | some d => digitsValue base val rest (acc * base + d)
    | none => acc

/-- Magnitude part of JavaScript `parseInt` with no explicit radix: a
`0x`/`0X` prefix selects base 16, otherwise base 10; `none` when no digit
follows (`NaN`). -/
def jsParseIntMag : Str → Option Nat
  | '0' :: 'x' :: r =>
    match r with
    | c :: _ => if (hexDigitVal c).isSome then some (digitsValue 16 hexDigitVal r 0) else none
    | [] => none
  | '0' :: 'X' :: r =>
    match r with
    | c :: _ => if (hexDigitVal c).isSome then some (digitsValue 16 hexDigitVal r 0) else none
    | [] => none
  | c :: r =>
    if c.isDigit then some (digitsValue 10 decDigitVal (c :: r) 0) else none
  | [] => none

/-- JavaScript `parseInt(string)`: skip whitespace, optional sign, leading
digits; `none` is `NaN`. -/
def jsParseIntStr (s : Str) : Option Int :=
  match s.dropWhile isJsSpace with
  | '-' :: r => (jsParseIntMag r).map (fun n => -(n : Int))
  | '+' :: r => (jsParseIntMag r).map (fun n => (n : Int))
  | r => (jsParseIntMag r).map (fun n => (n : Int))

/-- `parseInt(v)` for a possibly-`undefined` JSON value: the argument is
first converted with `String(v)` (so `parseInt(undefined)` is `NaN`). -/
def jsParseIntJson : Option Json → Option Int
  | none => none
  | some j => jsParseIntStr (jsToString j)

def escapeChar (e : Char) : Option Char :=
  if e == '"' then some '"'
  else if e == '\\' then some '\\'
  else if e == '/' then some '/'
  else if e == 'n' then some '\x0a'
  else if e == 't' then some '\x09'
  else if e == 'r' then some '\x0d'
  else if e == 'b' then some '\x08'
  else if e == 'f' then some '\x0c'
  else none

/-- Body of a JSON string literal (after the opening quote); returns the
decoded characters and the rest of the input after the closing quote.
`\uXXXX` escapes are outside the model. -/
def parseStrBody : Str → Option (Str × Str)
  | [] => none
  | '"' :: rest => some ([], rest)
  | '\\' :: e :: rest =>
    match escapeChar e, parseStrBody rest with
    | some c, some (cs, r) => some (c :: cs, r)
    | _, _ => none
  | c :: rest =>
    if c.toNat < 32 then none
    else
      match parseStrBody rest with
      | some (cs, r) => some (c :: cs, r)
      | none => none

def digitStart : Str → Bool
  | c :: _ => c.isDigit
  | [] => false

mutual
/-- Recursive-descent `JSON.parse` value parser.  The fuel argument makes the
mutual recursion structural; `jsonParse` supplies `2*length+2`, which bounds
the call depth (at most two calls are made per consumed character). -/
def parseVal : Nat → Str → Option (Json × Str)
  | 0, _ => none
  | fuel + 1, s =>
    match s.dropWhile isJsonWs with
    | [] => none
    | '\x7b' :: rest => parseObjFields fuel rest
    | '[' :: rest => parseArrItems fuel rest
    | '"' :: rest =>
      match parseStrBody rest with
      | some (cs, r) => some (.str cs, r)
      | none => none
    | 'n' :: 'u' :: 'l' :: 'l' :: r => some (.null, r)
    | 't' :: 'r' :: 'u' :: 'e' :: r => some (.bool true, r)
    | 'f' :: 'a' :: 'l' :: 's' :: 'e' :: r => some (.bool false, r)
    | '-' :: c :: r =>
      if c.isDigit then
        if c == '0' && digitStart r then none
        else some (.num (-(digitsValue 10 decDigitVal (c :: r) 0 : Int)), (c :: r).dropWhile (·.isDigit))
      else none
    | c :: r =>
      if c.isDigit then
        if c == '0' && digitStart r then none
        else some (.num ((digitsValue 10 decDigitVal (c :: r) 0 : Int)), (c :: r).dropWhile (·.isDigit))
      else none
/-- Array items, entered just after `[`. -/
def parseArrItems : Nat → Str → Option (Json × Str)
  | 0, _ => none
  | fuel + 1, s =>
    match s.dropWhile isJsonWs with
    | ']' :: r => some (.arr .nil, r)
    | s1 =>
      match parseVal fuel s1 with
      | some (v, r) =>
        match parseArrRest fuel r with
        | some (vs, r2) => some (.arr (.cons v vs), r2)
        | none => none
      | none => none
/-- After one array item: `,` and another item, or `]`. -/
def parseArrRest : Nat → Str → Option (JsonList × Str)
  | 0, _ => none
  | fuel + 1, s =>
    match s.dropWhile isJsonWs with
    | ']' :: r => some (.nil, r)
    | ',' :: r =>
      match parseVal fuel r with
      | some (v, r2) =>
        match parseArrRest fuel r2 with
        | some (vs, r3) => some (.cons v vs, r3)
        | none => none
      | none => none
    | _ => none
/-- Object members, entered just after the opening brace. -/
def parseObjFields : Nat → Str → Option (Json × Str)
  | 0, _ => none
  | fuel + 1, s =>
    match s.dropWhile isJsonWs with
    | '\x7d' :: r => some (.obj .nil, r)
    | '"' :: r =>
      match parseStrBody r with
      | some (k, r2) =>
        match r2.dropWhile isJsonWs with
        | ':' :: r3 =>
          match parseVal fuel r3 with
          | some (v, r4) =>
            match parseObjRest fuel r4 with
            | some (fs, r5) => some (.obj (.cons k v fs), r5)
            | none => none
          | none => none
        | _ => none
      | none => none
    | _ => none
/-- After one object member: `,` and another member, or the closing brace. -/
def parseObjRest : Nat → Str → Option (JsonFields × Str)
  | 0, _ => none
  | fuel + 1, s =>
    match s.dropWhile isJsonWs with
    | '\x7d' :: r => some (.nil, r)
    | ',' :: r =>
      match r.dropWhile isJsonWs with
      | '"' :: r2 =>
        match parseStrBody r2 with
        | some (k, r3) =>
          match r3.dropWhile isJsonWs with
          | ':' :: r4 =>
            match parseVal fuel r4 with
            | some (v, r5) =>
              match parseObjRest fuel r5 with
              | some (fs, r6) => some (.cons k v fs, r6)
              | none => none
            | none => none
          | _ => none
        | none => none
      | _ => none
    | _ => none
end

/-- `JSON.parse`: a single value covering the whole input (up to surrounding
whitespace), otherwise failure. -/
def jsonParse (s : Str) : Option Json :=
  match parseVal (2 * s.length + 2) s with
  | some (v, rest) => if (rest.dropWhile isJsonWs).isEmpty then some v else none
  | none => none

/-- The prefix of `l` that ends at the last occurrence of `ch` (empty when
`ch` does not occur). -/
def upToLast (ch : Char) (l : Str) : Str :=
  (l.reverse.dropWhile (fun c => !(c == ch))).reverse

/-- The match of `/\{[\s\S]*\}|\[[\s\S]*\]/` against `s`: the scan looks for
the leftmost position where either alternative can start (the object
alternative preferred), and the greedy `[\s\S]*` runs to the last closing
bracket of the same kind. -/
def bracketSearch : Str → Option Str
  | [] => none
  | c :: cs =>
    if c == '\x7b' && cs.contains '\x7d' then some ('\x7b' :: upToLast '\x7d' cs)
    else if c == '[' && cs.contains ']' then some ('[' :: upToLast ']' cs)
    else bracketSearch cs

/-- `server.js:132-141` `extractJson`: falsy input gives `[]`; strip the
code-fence markers and trim; empty gives `[]`; try `JSON.parse`; on failure
try the bracket-regex substring; on failure give `[]`. -/
def extractJson (s : Str) : Json :=
  if s.isEmpty then .arr .nil
  else
    let cleaned := cleanText s
    if cleaned.isEmpty then .arr .nil
    else
      match jsonParse cleaned with
      | some v => v
      | none =>
        match bracketSearch cleaned with
        | some sub =>
          match jsonParse sub with
          | some v => v
          | none => .arr .nil
        | none => .arr .nil

def isOpenBracket (c : Char) : Bool := c == '\x7b' || c == '['

def isCloseBracket (c : Char) : Bool := c == '\x7d' || c == ']'

/-- Index of the last character satisfying `p`. -/
def lastIdxOf (p : Char → Bool) (s : Str) : Option Nat :=
  match s.reverse.findIdx? p with
  | some k => some (s.length - 1 - k)
  | none => none

/-- Modelled from the claim wording of C7: the fallback substring runs from
the first `{` or `[` to the last `}` or `]`, whatever their kinds. -/
def extractJsonClaim (s : Str) : Json :=
  if s.isEmpty then .arr .nil
  else
    let cleaned := cleanText s
    if cleaned.isEmpty then .arr .nil
    else
      match jsonParse cleaned with
      | some v => v
      | none =>
        match cleaned.findIdx? isOpenBracket, lastIdxOf isCloseBracket cleaned with
        | some i, some j =>
          if i < j then
            match jsonParse ((cleaned.drop i).take (j + 1 - i)) with
            | some v => v
            | none => .arr .nil
          else .arr .nil
        | some _, none => .arr .nil
        | none, _ => .arr .nil

/-- Can an alternative of the bracket regular expression start at index `i`?
(Index formulation, used by the amended reading of C7.) -/
def altStartAt (s : Str) (i : Nat) : Bool :=
  (s.getD i ' ' == '\x7b' && (s.drop (i + 1)).contains '\x7d') ||
  (s.getD i ' ' == '[' && (s.drop (i + 1)).contains ']')

/-- The regex match built at start index `i` (greedy to the last closing
bracket of the matching kind). -/
def buildMatchAt (s : Str) (i : Nat) : Str :=
  match s.drop i with
  | '\x7b' :: r => '\x7b' :: upToLast '\x7d' r
  | '[' :: r => '[' :: upToLast ']' r
  | _ => []

/-- Index-based statement of the bracket-regex search: the earliest start
index at which an alternative matches. -/
def regexSearchSpec (s : Str) : Option Str :=
  ((List.range s.length).find? (fun i => altStartAt s i)).map (buildMatchAt s)

/-- The amended reading of C7: as the claim, except that the fallback
substring is the one the regex actually selects (earliest viable start,
closing bracket of the same kind). -/
def extractJsonAmended (s : Str) : Json :=
  if s.isEmpty then .arr .nil
  else
    let cleaned := cleanText s
    if cleaned.isEmpty then .arr .nil
    else
      match jsonParse cleaned with
      | some v => v
      | none =>
        match regexSearchSpec cleaned with
        | some sub =>
          match jsonParse sub with
          | some v => v
          | none => .arr .nil
        | none => .arr .nil

/-- Wrap a response in Markdown code fences, ```` ```json ```` before and
```` ``` ```` after. -/
def wrapFences (s : Str) : Str :=
  "```json\n".data ++ s ++ "\n```".data

inductive Tok where
  | lit (c : Char) : Tok
  | anyc : Tok
  | word : Tok
deriving DecidableEq

def tokMatch : Tok → Char → Bool
  | .lit p, c => p == c
  | .anyc, c => !isLineTerm c
  | .word, c => isWordChar c

def matchPat : List Tok → Str → Bool
  | [], _ => true
  | _ :: _, [] => false
  | t :: ts, c :: cs => tokMatch t c && matchPat ts cs

/-- `youtu.be\/` (the unescaped `.` matches any non-terminator). -/
def ybPat : List Tok :=
  [.lit 'y', .lit 'o', .lit 'u', .lit 't', .lit 'u', .anyc, .lit 'b', .lit 'e', .lit '/']

/-- `v\/`. -/
def vPat : List Tok := [.lit 'v', .lit '/']

/-- `\/u\/\w\/`. -/
def uPat : List Tok := [.lit '/', .lit 'u', .lit '/', .word, .lit '/']

/-- `embed\/`. -/
def embedPat : List Tok :=
  [.lit 'e', .lit 'm', .lit 'b', .lit 'e', .lit 'd', .lit '/']

/-- `watch\?`. -/
def watchPat : List Tok :=
  [.lit 'w', .lit 'a', .lit 't', .lit 'c', .lit 'h', .lit '?']

/-- The length consumed by the delimiter alternation of the video-id regex at
the start of `s` (alternatives tried in source order). -/
def altMatch (s : Str) : Option Nat :=
  if matchPat ybPat s then some 9
  else if matchPat vPat s then some 2
  else if matchPat uPat s then some 5
  else if matchPat embedPat s then some 6
  else if matchPat watchPat s then some 6
  else none

/-- The greedy `^.*` of the video-id regex: the delimiter group matches at the
rightmost possible position that is reachable without crossing a line
terminator.  Returns the input remainder just after the matched delimiter. -/
def scanDelim : Str → Option Str → Option Str
  | [], best => best
  | c :: cs, best =>
    if isLineTerm c then best
    else
      scanDelim cs
        (match altMatch (c :: cs) with
          | some len => some (cs.drop (len - 1))
          | none => best)

/-- One optional character (`\??`, `v?` or `=?`): consume it when present. -/
def optCh (ch : Char) : Str → Str
  | c :: cs => if c == ch then cs else c :: cs
  | [] => []

/-- `server.js:25-29` `extractVideoId`: match
`/^.*((youtu.be\/)|(v\/)|(\/u\/\w\/)|(embed\/)|(watch\?))\??v?=?([^#&?]*).*/`
and return the seventh capture group exactly when it has 11 characters. -/
def extractVideoId (url : Str) : Option Str :=
  match scanDelim url none with
  | none => none
  | some rest =>
    if ((optCh '=' (optCh 'v' (optCh '?' rest))).takeWhile
        (fun c => !(c == '#' || c == '&' || c == '?'))).length = 11 then
      some ((optCh '=' (optCh 'v' (optCh '?' rest))).takeWhile
        (fun c => !(c == '#' || c == '&' || c == '?')))
    else none

def shortUrl (id : Str) : Str := "https://youtu.be/".data ++ id

def embedUrl (id : Str) : Str := "https://www.youtube.com/embed/".data ++ id

def watchUrl (id : Str) : Str := "https://www.youtube.com/watch?v=".data ++ id

def vPathUrl (id : Str) : Str := "https://www.youtube.com/v/".data ++ id

/-- The object `getYouTubeVideoData` builds from the snippet (fields may be
absent upstream, hence `Option`). -/
structure VideoData where
  title : Option Json
  description : Option Json
  channelTitle : Option Json
  publishedAt : Option Json
  thumbnail : Option Json

/-- `server.js:55-56`: the catch-branch of `getTranscript` — fetch the
metadata and return `videoData.description || "No transcript available."`;
a metadata failure propagates. -/
def transcriptFallback : Except Str VideoData → Except Str Json
  | .error e => .error e
  | .ok vd =>
    .ok (match vd.description with
      | some d => if jsTruthy d then d else .str "No transcript available.".data
      | none => .str "No transcript available.".data)

/-- Did the primary transcript endpoint deliver a usable transcript
(`response.data && response.data.transcript` truthy)? -/
def primaryDelivers : Except Str Json → Bool
  | .error _ => false
  | .ok data => jsTruthy data && jsTruthyOpt (jsGetField data "transcript".data)

/-- `server.js:49-58` `getTranscript`, parameterised by the outcomes of the
two awaited HTTP calls: the primary transcript endpoint (`primary` is its
`response.data`) and the metadata fetch. -/
def getTranscript (primary : Except Str Json) (metadata : Except Str VideoData) :
    Except Str Json :=
  match primary with
  | .ok data =>
    if jsTruthy data && jsTruthyOpt (jsGetField data "transcript".data) then
      .ok ((jsGetField data "transcript".data).getD .null)
    else transcriptFallback metadata
  | .error _ => transcriptFallback metadata

structure ChatMsg where
  role : Str
  content : Str

/-- Outcomes of the two provider HTTP calls, as functions of what the code
sends them. -/
structure LLMOracles where
  groq : List ChatMsg → Nat → Except Str Str
  gemini : List ChatMsg → Except Str Str

/-- `String.prototype.toLowerCase` (ASCII folding). -/
def jsToLower (s : Str) : Str := s.map Char.toLower

/-- `server.js:120-129` `callLLM`: dispatch on the lower-cased provider
name; an unknown name throws before any network call. -/
def callLLM (o : LLMOracles) (provider : Str) (messages : List ChatMsg)
    (maxTokens : Nat) : Except Str Str :=
  if jsToLower provider = "groq".data then o.groq messages maxTokens
  else if jsToLower provider = "gemini".data then o.gemini messages
  else .error ("Unknown provider: ".data ++ provider)

/-- `server.js:145-147`: truncate the transcript to 10000 characters,
appending the marker when cut. -/
def truncatedTranscript (t : Str) : Str :=
  if 10000 < t.length then t.take 10000 ++ "... [truncated]".data else t

def escJsonChar (c : Char) : Str :=
  if c == '"' then ['\\', '"']
  else if c == '\\' then ['\\', '\\']
  else if c == '\n' then ['\\', 'n']
  else if c == '\t' then ['\\', 't']
  else if c == '\r' then ['\\', 'r']
  else [c]

def jsonQuoteStr (s : Str) : Str := '"' :: (s.flatMap escJsonChar ++ ['"'])

def stringifyItems : List Str → Str
  | [] => []
  | [s] => jsonQuoteStr s
  | s :: rest => jsonQuoteStr s ++ ',' :: stringifyItems rest

/-- `JSON.stringify` of an array of strings. -/
def jsonStringifyArr (l : List Str) : Str := '[' :: (stringifyItems l ++ [']'])

/-- The evaluation prompt of `analyzeCoverage` (`server.js:149-156`). -/
def buildPrompt (transcript : Str) (subtopics : List Str) : Str :=
  "You are an educational content analyst.\nFor each subtopic, analyze the transcript and return ONLY valid JSON in this format:\n[\n  \x7b \"subtopic\": \"<name>\", \"coverageScore\": <0-100>, \"evidence\": \"<1-2 sentences>\" \x7d\n]\n\nTranscript: \"\"\"".data
    ++ truncatedTranscript transcript
    ++ "\"\"\"\nSubtopics: ".data ++ jsonStringifyArr subtopics

/-- The two-message exchange sent to the provider (`server.js:158-161`). -/
def analyzeMessages (transcript : Str) (subtopics : List Str) : List ChatMsg :=
  [⟨"system".data, "You are an educational content analyst. Only output valid JSON.".data⟩,
   ⟨"user".data, buildPrompt transcript subtopics⟩]

/-- A normalized coverage item.  `subtopic` and `evidence` hold whatever
JavaScript value the code stores there (`none` is `undefined`). -/
structure CoverageItem where
  subtopic : Option Json
  coverageScore : Int
  covered : Bool
  evidence : Json

/-- A JavaScript number that is either `NaN` or an integer (the only values
`overallScore` can take). -/
inductive JsNum where
  | nan : JsNum
  | int (n : Int) : JsNum

structure CoverageReport where
  overallScore : JsNum
  subtopicAnalysis : List CoverageItem
  summary : Str

/-- `server.js:167-172`: normalization of one LLM item (for non-`null`
items, on which property access does not throw). -/
def normBody (j : Json) : CoverageItem :=
  let rawOr0 : Int := (jsParseIntJson (jsGetField j "coverageScore".data)).getD 0
  { subtopic := jsGetField j "subtopic".data
    coverageScore := min (max rawOr0 0) 100
    covered := decide (50 ≤ rawOr0)
    evidence :=
      match jsGetField j "evidence".data with
      | some e => if jsTruthy e then e else .str "No evidence provided.".data
      | none => .str "No evidence provided.".data }

/-- Normalization of one item; property access on `null` throws
(`none`). -/
def normalizeItem (j : Json) : Option CoverageItem :=
  if jsIsNull j then none else some (normBody j)

/-- `items.map(...)` with a possible thrown `TypeError` inside the
callback. -/
def mapNorm : List Json → Option (List CoverageItem)
  | [] => some []
  | j :: rest =>
    match normalizeItem j with
    | none => none
    | some it =>
      match mapNorm rest with
      | none => none
      | some l => some (it :: l)

def sumScores (l : List CoverageItem) : Int :=
  l.foldl (fun acc it => acc + it.coverageScore) 0

/-- `Math.round(num/den)` for an integer sum over `den > 0` items
(round half toward positive infinity). -/
def jsRound (num : Int) (den : Nat) : Int := Int.fdiv (2 * num + den) (2 * den)

/-- One fallback item of the catch branch (`server.js:187-192`). -/
def failItem (sub : Str) : CoverageItem :=
  { subtopic := some (.str sub), coverageScore := 0, covered := false,
    evidence := .str "Failed to generate coverage analysis.".data }

def okSummary (n : Nat) (provider : Str) : Str :=
  "Overall coverage based on ".data ++ Nat.toDigits 10 n
    ++ " subtopics using ".data ++ provider ++ ".".data

def failSummary (provider : Str) : Str :=
  "Failed to generate coverage analysis using ".data ++ provider ++ ".".data

/-- The try-block of `analyzeCoverage` (`server.js:163-182`): LLM call,
extraction, normalization, averaging.  `0/0` on an empty normalized list is
JavaScript `NaN`, and calling `.map` on a non-array extraction result
throws. -/
def analyzeBody (o : LLMOracles) (transcript : Str) (subtopics : List Str)
    (provider : Str) : Except Str CoverageReport :=
  match callLLM o provider (analyzeMessages transcript subtopics) 2000 with
  | .error e => .error e
  | .ok responseText =>
    match extractJson responseText with
    | .arr items =>
      match mapNorm items.toList with
      | some normalized =>
        .ok { overallScore :=
                if normalized.length = 0 then .nan
                else .int (jsRound (sumScores normalized) normalized.length),
              subtopicAnalysis := normalized,
              summary := okSummary subtopics.length provider }
      | none => .error "TypeError: Cannot read properties of null".data
    | _ => .error "TypeError: subtopicAnalysis.map is not a function".data

/-- `server.js:144-196` `analyzeCoverage`: the try-block result, or the
fallback zero-score report when it threw. -/
def analyzeCoverage (o : LLMOracles) (transcript : Str) (subtopics : List Str)
    (provider : Str) : CoverageReport :=
  match analyzeBody o transcript subtopics provider with
  | .ok r => r
  | .error _ =>
    { overallScore := .int 0,
      subtopicAnalysis := subtopics.map failItem,
      summary := failSummary provider }

/-- An oracle pair whose calls all resolve to the one given outcome. -/
def constOracles (r : Except Str Str) : LLMOracles :=
  ⟨fun _ _ => r, fun _ => r⟩

set_option maxRecDepth 20000

/-! ### Helper lemmas: the video-id scan over identifier characters -/

theorem matchPat_lit_mem : ∀ (ts : List Tok) (s : Str), matchPat ts s = true →
    ∀ d : Char, Tok.lit d ∈ ts → d ∈ s := by
  intro ts
  induction ts with
  | nil => intro s _ d hd; simp at hd
  | cons t ts ih =>
    intro s hm d hd
    cases s with
    | nil => simp [matchPat] at hm
    | cons c cs =>
      rw [matchPat, Bool.and_eq_true] at hm
      rcases List.mem_cons.mp hd with h | h
      · rw [← h, tokMatch] at hm
        have : d = c := by simpa using hm.1
        rw [this]; exact List.mem_cons_self c cs
      · exact List.mem_cons_of_mem c (ih cs hm.2 d h)

theorem matchPat_id_false (s : Str) (hs : ∀ c ∈ s, isIdChar c = true)
    (ts : List Tok) (hts : Tok.lit '/' ∈ ts ∨ Tok.lit '?' ∈ ts) :
    matchPat ts s = false := by
  rcases hts with ht | ht
  · cases hm : matchPat ts s with
    | false => rfl
    | true => exact absurd (hs _ (matchPat_lit_mem ts s hm '/' ht)) (by decide)
  · cases hm : matchPat ts s with
    | false => rfl
    | true => exact absurd (hs _ (matchPat_lit_mem ts s hm '?' ht)) (by decide)

theorem altMatch_id_none (s : Str) (hs : ∀ c ∈ s, isIdChar c = true) :
    altMatch s = none := by
  unfold altMatch
  rw [matchPat_id_false s hs ybPat (Or.inl (by decide)),
    matchPat_id_false s hs vPat (Or.inl (by decide)),
    matchPat_id_false s hs uPat (Or.inl (by decide)),
    matchPat_id_false s hs embedPat (Or.inl (by decide)),
    matchPat_id_false s hs watchPat (Or.inr (by decide))]
  rfl

theorem altMatch_slash_id (id : Str) (hs : ∀ c ∈ id, isIdChar c = true) :
    altMatch ('/' :: id) = none := by
  unfold altMatch
  rw [show matchPat ybPat ('/' :: id) = false from rfl,
    show matchPat vPat ('/' :: id) = false from rfl,
    show matchPat uPat ('/' :: id)
      = matchPat [Tok.lit 'u', Tok.lit '/', Tok.word, Tok.lit '/'] id from rfl,
    matchPat_id_false id hs _ (Or.inl (by decide)),
    show matchPat embedPat ('/' :: id) = false from rfl,
    show matchPat watchPat ('/' :: id) = false from rfl]
  rfl

theorem idChar_not_lineTerm (c : Char) (h : isIdChar c = true) : isLineTerm c = false := by
  cases hl : isLineTerm c with
  | false => rfl
  | true =>
    rw [isLineTerm] at hl
    simp only [Bool.or_eq_true, beq_iff_eq] at hl
    rcases hl with ((h1 | h1) | h1) | h1 <;> subst h1 <;> exact absurd h (by decide)

theorem scanDelim_id : ∀ (s : Str), (∀ c ∈ s, isIdChar c = true) →
    ∀ best, scanDelim s best = best := by
  intro s
  induction s with
  | nil => intro _ best; rfl
  | cons c cs ih =>
    intro hs best
    have hc : isIdChar c = true := hs c (List.mem_cons_self c cs)
    have hcs : ∀ x ∈ cs, isIdChar x = true := fun x hx => hs x (List.mem_cons_of_mem c hx)
    rw [scanDelim, altMatch_id_none (c :: cs) hs, idChar_not_lineTerm c hc]
    exact ih hcs best

theorem scan_shortUrl (id : Str) (hid : ∀ c ∈ id, isIdChar c = true) :
    scanDelim (shortUrl id) none = some id := by
  have h0 : scanDelim (shortUrl id) none
      = scanDelim id
          (match altMatch ('/' :: id) with
            | some len => some (id.drop (len - 1))
            | none => some id) := rfl
  rw [h0, altMatch_slash_id id hid, scanDelim_id id hid]

theorem scan_embedUrl (id : Str) (hid : ∀ c ∈ id, isIdChar c = true) :
    scanDelim (embedUrl id) none = some id := by
  have h0 : scanDelim (embedUrl id) none
      = scanDelim id
          (match altMatch ('/' :: id) with
            | some len => some (id.drop (len - 1))
            | none => some id) := rfl
  rw [h0, altMatch_slash_id id hid, scanDelim_id id hid]

theorem scan_vPathUrl (id : Str) (hid : ∀ c ∈ id, isIdChar c = true) :
    scanDelim (vPathUrl id) none = some id := by
  have h0 : scanDelim (vPathUrl id) none
      = scanDelim id
          (match altMatch ('/' :: id) with
            | some len => some (id.drop (len - 1))
            | none => some id) := rfl
  rw [h0, altMatch_slash_id id hid, scanDelim_id id hid]

theorem scan_watchUrl (id : Str) (hid : ∀ c ∈ id, isIdChar c = true) :
    scanDelim (watchUrl id) none = some ('v' :: '=' :: id) := by
  have h0 : scanDelim (watchUrl id) none = scanDelim id (some ('v' :: '=' :: id)) := rfl
  rw [h0, scanDelim_id id hid]

theorem idChar_bne_of (c d : Char) (h : isIdChar c = true) (hd : isIdChar d = false) :
    (c == d) = false := by
  cases hcd : c == d with
  | false => rfl
  | true =>
    have hcd' : c = d := by simpa using hcd
    rw [hcd'] at h
    rw [h] at hd
    exact hd

theorem takeWhile_idChars (s : Str) (hs : ∀ c ∈ s, isIdChar c = true) :
    s.takeWhile (fun c => !(c == '#' || c == '&' || c == '?')) = s := by
  induction s with
  | nil => rfl
  | cons c cs ih =>
    have hc := hs c (List.mem_cons_self c cs)
    rw [List.takeWhile_cons]
    rw [idChar_bne_of c '#' hc (by decide), idChar_bne_of c '&' hc (by decide),
      idChar_bne_of c '?' hc (by decide)]
    simp only [Bool.or_false, Bool.not_false, if_true]
    rw [ih (fun x hx => hs x (List.mem_cons_of_mem c hx))]

theorem g7_of_id (id : Str) (hid : ∀ c ∈ id, isIdChar c = true)
    (hv : id.head? ≠ some 'v') :
    (optCh '=' (optCh 'v' (optCh '?' id))).takeWhile
      (fun c => !(c == '#' || c == '&' || c == '?')) = id := by
  cases id with
  | nil => rfl
  | cons c cs =>
    have hc := hid c (List.mem_cons_self c cs)
    have h1 : optCh '?' (c :: cs) = c :: cs := by
      rw [optCh, idChar_bne_of c '?' hc (by decide)]; rfl
    have h2 : optCh 'v' (c :: cs) = c :: cs := by
      have : (c == 'v') = false := by
        cases hcv : c == 'v' with
        | false => rfl
        | true =>
          have hcv' : c = 'v' := by simpa using hcv
          subst hcv'
          exact absurd rfl hv
      rw [optCh, this]; rfl
    have h3 : optCh '=' (c :: cs) = c :: cs := by
      rw [optCh, idChar_bne_of c '=' hc (by decide)]; rfl
    rw [h1, h2, h3]
    exact takeWhile_idChars (c :: cs) hid

theorem extractVideoId_eq (url rest : Str) (h : scanDelim url none = some rest) :
    extractVideoId url =
      (if ((optCh '=' (optCh 'v' (optCh '?' rest))).takeWhile
          (fun c => !(c == '#' || c == '&' || c == '?'))).length = 11 then
        some ((optCh '=' (optCh 'v' (optCh '?' rest))).takeWhile
          (fun c => !(c == '#' || c == '&' || c == '?')))
      else none) := by
  unfold extractVideoId
  rw [h]

/-- C9 (counterexample): the short-link shape carrying the 11-character
identifier `vQw4w9WgXcQ` — a legitimate identifier that happens to begin with
`v` — yields `null`, because the optional `v?` of the regular expression
consumes the identifier's first character and the remaining capture has only
10 characters.  The claim requires `some "vQw4w9WgXcQ"` here. -/
theorem C9_counterexample_v_initial_id :
    extractVideoId (shortUrl "vQw4w9WgXcQ".data) = none ∧
    "vQw4w9WgXcQ".data.length = 11 ∧
    (∀ c ∈ "vQw4w9WgXcQ".data, isIdChar c = true) := by
  refine ⟨by rfl, by rfl, by decide⟩

theorem extractVideoId_v_initial (url cs : Str)
    (hscan : scanDelim url none = some ('v' :: cs))
    (hcs : ∀ x ∈ cs, isIdChar x = true) (hlen10 : cs.length = 10) :
    extractVideoId url = none := by
  rw [extractVideoId_eq url ('v' :: cs) hscan]
  have h3 : optCh '=' cs = cs := by
    cases cs with
    | nil => rfl
    | cons d ds =>
      rw [optCh, idChar_bne_of d '=' (hcs d (List.mem_cons_self d ds)) (by decide)]
      rfl
  rw [show optCh '=' (optCh 'v' (optCh '?' ('v' :: cs))) = optCh '=' cs from rfl, h3,
    takeWhile_idChars cs hcs]
  rw [if_neg (by rw [hlen10]; omega)]

/-- C9 (amended): for an 11-character identifier over the identifier
alphabet, the watch-query shape always yields the identifier; the
short-link, embed and bare-path shapes yield it exactly when the identifier
does not begin with `v` — for an identifier beginning with `v`, the regular
expression's optional `v?` eats that character, the capture has only 10
characters, and the function returns `null` on those three shapes; moreover
any returned value, for any URL whatsoever, has exactly 11 characters. -/
theorem C9_extractVideoId_amended (id : Str) (hlen : id.length = 11)
    (hid : ∀ c ∈ id, isIdChar c = true) :
    extractVideoId (watchUrl id) = some id ∧
    (id.head? ≠ some 'v' →
      extractVideoId (shortUrl id) = some id ∧
      extractVideoId (embedUrl id) = some id ∧
      extractVideoId (vPathUrl id) = some id) ∧
    (id.head? = some 'v' →
      extractVideoId (shortUrl id) = none ∧
      extractVideoId (embedUrl id) = none ∧
      extractVideoId (vPathUrl id) = none) ∧
    (∀ url r, extractVideoId url = some r → r.length = 11) := by
  refine ⟨?_, ?_, ?_, ?_⟩
  · rw [extractVideoId_eq _ _ (scan_watchUrl id hid),
      show optCh '=' (optCh 'v' (optCh '?' ('v' :: '=' :: id))) = id from rfl,
      takeWhile_idChars id hid, if_pos hlen]
  · intro hv
    refine ⟨?_, ?_, ?_⟩
    · rw [extractVideoId_eq _ _ (scan_shortUrl id hid), g7_of_id id hid hv, if_pos hlen]
    · rw [extractVideoId_eq _ _ (scan_embedUrl id hid), g7_of_id id hid hv, if_pos hlen]
    · rw [extractVideoId_eq _ _ (scan_vPathUrl id hid), g7_of_id id hid hv, if_pos hlen]
  · intro hv
    cases id with
    | nil => simp at hlen
    | cons c cs =>
      have hc : c = 'v' := Option.some.inj hv
      subst hc
      have hcs : ∀ x ∈ cs, isIdChar x = true :=
        fun x hx => hid x (List.mem_cons_of_mem _ hx)
      have hlen10 : cs.length = 10 := by
        rw [List.length_cons] at hlen
        omega
      exact ⟨extractVideoId_v_initial _ cs (scan_shortUrl ('v' :: cs) hid) hcs hlen10,
        extractVideoId_v_initial _ cs (scan_embedUrl ('v' :: cs) hid) hcs hlen10,
        extractVideoId_v_initial _ cs (scan_vPathUrl ('v' :: cs) hid) hcs hlen10⟩
  · intro url r h
    unfold extractVideoId at h
    cases hs : scanDelim url none with
    | none => rw [hs] at h; exact absurd h (by simp)
    | some rest =>
      rw [hs] at h
      dsimp only at h
      split at h
      · rename_i hlen11
        have hgr := Option.some.inj h
        rw [← hgr]
        exact hlen11
      · exact absurd h (by simp)

/-- C9 (witness): the amended theorem applied at the identifiers
`dQw4w9WgXcQ` (not beginning with `v`: all four shapes yield it) and
`vQw4w9WgXcQ` (beginning with `v`: only the watch-query shape yields it, the
other three return `null`). -/
theorem C9_extractVideoId_amended_witness :
    extractVideoId (watchUrl "dQw4w9WgXcQ".data) = some "dQw4w9WgXcQ".data ∧
    extractVideoId (shortUrl "dQw4w9WgXcQ".data) = some "dQw4w9WgXcQ".data ∧
    extractVideoId (embedUrl "dQw4w9WgXcQ".data) = some "dQw4w9WgXcQ".data ∧
    extractVideoId (vPathUrl "dQw4w9WgXcQ".data) = some "dQw4w9WgXcQ".data ∧
    extractVideoId (watchUrl "vQw4w9WgXcQ".data) = some "vQw4w9WgXcQ".data ∧
    extractVideoId (shortUrl "vQw4w9WgXcQ".data) = none ∧
    extractVideoId (embedUrl "vQw4w9WgXcQ".data) = none ∧
    extractVideoId (vPathUrl "vQw4w9WgXcQ".data) = none := by
  have h1 := C9_extractVideoId_amended "dQw4w9WgXcQ".data (by rfl) (by decide)
  have h2 := C9_extractVideoId_amended "vQw4w9WgXcQ".data (by rfl) (by decide)
  have h1b := h1.2.1 (by decide)
  have h2b := h2.2.2.1 (by rfl)
  exact ⟨h1.1, h1b.1, h1b.2.1, h1b.2.2, h2.1, h2b.1, h2b.2.1, h2b.2.2⟩

/-- C10: provider dispatch in `callLLM` is case-insensitive — a provider
string lower-casing to `groq` (resp. `gemini`) behaves exactly as the
lowercase name, and a provider lower-casing to neither yields the
unknown-provider error. -/
theorem C10_callLLM_case_insensitive (o : LLMOracles) (p : Str)
    (messages : List ChatMsg) (maxTokens : Nat) :
    (jsToLower p = "groq".data →
      callLLM o p messages maxTokens = callLLM o "groq".data messages maxTokens) ∧
    (jsToLower p = "gemini".data →
      callLLM o p messages maxTokens = callLLM o "gemini".data messages maxTokens) ∧
    (jsToLower p ≠ "groq".data → jsToLower p ≠ "gemini".data →
      callLLM o p messages maxTokens = .error ("Unknown provider: ".data ++ p)) := by
  refine ⟨?_, ?_, ?_⟩
  · intro h
    unfold callLLM
    rw [h]
    rfl
  · intro h
    unfold callLLM
    rw [h]
    rfl
  · intro h1 h2
    unfold callLLM
    rw [if_neg h1, if_neg h2]

/-- C10 (witness): `GROQ` and `Gemini` dispatch as their lowercase names and
`azure` is rejected. -/
theorem C10_callLLM_case_insensitive_witness :
    (callLLM (constOracles (.ok "fine".data)) "GROQ".data [] 5
      = callLLM (constOracles (.ok "fine".data)) "groq".data [] 5) ∧
    (callLLM (constOracles (.ok "fine".data)) "Gemini".data [] 5
      = callLLM (constOracles (.ok "fine".data)) "gemini".data [] 5) ∧
    (callLLM (constOracles (.ok "fine".data)) "azure".data [] 5
      = .error ("Unknown provider: ".data ++ "azure".data)) :=
  ⟨(C10_callLLM_case_insensitive _ _ _ _).1 (by decide),
   (C10_callLLM_case_insensitive _ _ _ _).2.1 (by decide),
   (C10_callLLM_case_insensitive _ _ _ _).2.2 (by decide) (by decide)⟩

/-- C3: whenever the LLM call layer throws (failed provider call or
unrecognized provider name), `analyzeCoverage` returns the fallback report:
`overallScore = 0` and exactly one zeroed item per originally requested
subtopic, in input order. -/
theorem C3_exception_fallback_report (o : LLMOracles) (transcript : Str)
    (subtopics : List Str) (provider : Str) (e : Str)
    (h : callLLM o provider (analyzeMessages transcript subtopics) 2000 = .error e) :
    (analyzeCoverage o transcript subtopics provider).overallScore = .int 0 ∧
    (analyzeCoverage o transcript subtopics provider).subtopicAnalysis
      = subtopics.map failItem ∧
    (analyzeCoverage o transcript subtopics provider).subtopicAnalysis.length
      = subtopics.length := by
  unfold analyzeCoverage analyzeBody
  rw [h]
  exact ⟨rfl, rfl, by simp⟩

/-- C3 (witness): an unrecognized provider name (`openai`) produces the
fallback report for the single requested subtopic. -/
theorem C3_exception_fallback_report_witness :
    (analyzeCoverage (constOracles (.ok "[]".data)) "t".data ["a".data] "openai".data).overallScore
      = .int 0 ∧
    (analyzeCoverage (constOracles (.ok "[]".data)) "t".data ["a".data] "openai".data).subtopicAnalysis
      = ["a".data].map failItem ∧
    (analyzeCoverage (constOracles (.ok "[]".data)) "t".data ["a".data] "openai".data).subtopicAnalysis.length
      = (["a".data] : List Str).length :=
  C3_exception_fallback_report _ _ _ _ ("Unknown provider: openai".data) (by rfl)

/-- C1 (code bug): a successful LLM call whose response contains no JSON at
all makes `extractJson` yield the empty array, after which
`reduce(...)/0` is JavaScript `NaN`; `analyzeCoverage` then returns — without
throwing — a report whose `overallScore` is `NaN` and whose
`subtopicAnalysis` is empty, not the zero-score fallback report the claim
requires for a malformed response. -/
theorem C1_malformed_response_nan_report :
    analyzeCoverage (constOracles (.ok "I cannot analyze this transcript.".data))
        "some transcript".data ["light reactions".data] "groq".data
      = { overallScore := .nan,
          subtopicAnalysis := [],
          summary := "Overall coverage based on 1 subtopics using groq.".data } := by
  rfl

/-- C2 (code bug): when extraction yields zero items (here the response is
prose, so direct parse and the bracket fallback both fail), the division is
not guarded: the code returns `overallScore = NaN` with an empty analysis and
a success summary, instead of treating the case as the failure path. -/
theorem C2_zero_items_nan_not_fallback :
    analyzeCoverage (constOracles (.ok "Sorry, I cannot help with that.".data))
        "tt".data ["a".data, "b".data] "gemini".data
      = { overallScore := .nan,
          subtopicAnalysis := [],
          summary := "Overall coverage based on 2 subtopics using gemini.".data } := by
  rfl

/-- C8: when the primary transcript call fails or delivers an empty/missing
transcript field, `getTranscript` returns exactly what the metadata fallback
computes — the video description when truthy, the literal
`"No transcript available."` otherwise — and the primary error is swallowed
(the result depends only on the metadata outcome). -/
theorem C8_transcript_fallback_description (primary : Except Str Json)
    (metadata : Except Str VideoData) (h : primaryDelivers primary = false) :
    getTranscript primary metadata = transcriptFallback metadata ∧
    (∀ vd : VideoData, metadata = .ok vd →
      getTranscript primary metadata =
        .ok (match vd.description with
          | some d => if jsTruthy d then d else .str "No transcript available.".data
          | none => .str "No transcript available.".data)) := by
  have main : getTranscript primary metadata = transcriptFallback metadata := by
    cases primary with
    | error e => rfl
    | ok data =>
      have h' : (jsTruthy data && jsTruthyOpt (jsGetField data "transcript".data)) = false := h
      simp only [getTranscript]
      rw [h']
      rfl
  exact ⟨main, fun vd hm => by rw [main, hm]; rfl⟩

/-- C8 (witness): a failed primary call with successful metadata returns the
description. -/
theorem C8_transcript_fallback_description_witness :
    getTranscript (.error "socket hang up".data)
        (.ok ⟨none, some (.str "the description".data), none, none, none⟩)
      = transcriptFallback (.ok ⟨none, some (.str "the description".data), none, none, none⟩) ∧
    getTranscript (.error "socket hang up".data)
        (.ok ⟨none, some (.str "the description".data), none, none, none⟩)
      = .ok (.str "the description".data) := by
  have h := C8_transcript_fallback_description (.error "socket hang up".data)
    (.ok ⟨none, some (.str "the description".data), none, none, none⟩) (by rfl)
  exact ⟨h.1, h.2 _ rfl⟩

/-- C7 (counterexample): on the cleaned text `{ [1]` (no code fences, not
directly parseable), the claim's substring — from the first `{` or `[` to the
last `}` or `]`, i.e. the whole text — fails to parse, so the claim predicts
the empty result; the regular expression in the code instead skips the
`{` (which has no later `}`) and matches `[1]`, which parses. -/
theorem C7_counterexample_mixed_brackets :
    extractJson "\x7b [1]".data = .arr (.cons (.num 1) .nil) ∧
    extractJsonClaim "\x7b [1]".data = .arr .nil ∧
    extractJson "\x7b [1]".data ≠ extractJsonClaim "\x7b [1]".data := by
  refine ⟨by rfl, by rfl, ?_⟩
  intro h
  rw [show extractJson "\x7b [1]".data = .arr (.cons (.num 1) .nil) from rfl,
    show extractJsonClaim "\x7b [1]".data = .arr .nil from rfl] at h
  simp at h

/-- C5 (counterexample): an LLM item whose `coverageScore` is the JSON array
`["60"]` (a non-numeric raw score) and whose `evidence` is the number `7`.
The produced CoverageItem has `coverageScore = 60` — JavaScript `parseInt`
first string-converts the array to `"60"` — not `0` as the claim's
"non-numeric raw scores become 0" requires, and its `evidence` is the number
`7`, not a string. -/
theorem C5_counterexample_nonstring_evidence :
    (analyzeCoverage
        (constOracles (.ok "[\x7b\"subtopic\":\"a\",\"coverageScore\":[\"60\"],\"evidence\":7\x7d]".data))
        "t".data ["a".data] "groq".data).subtopicAnalysis
      = [{ subtopic := some (.str "a".data), coverageScore := 60, covered := true,
           evidence := .num 7 }] ∧
    (∀ s : Str, Json.num 7 ≠ Json.str s) := by
  refine ⟨by rfl, ?_⟩
  intro s h
  exact Json.noConfusion h

theorem mapNorm_of_no_null (l : List Json) (h : ∀ j ∈ l, jsIsNull j = false) :
    mapNorm l = some (l.map normBody) := by
  induction l with
  | nil => rfl
  | cons j rest ih =>
    have hj : jsIsNull j = false := h j (List.mem_cons_self j rest)
    rw [mapNorm, normalizeItem, hj]
    rw [ih (fun x hx => h x (List.mem_cons_of_mem j hx))]
    rfl

/-- C4: when the LLM call succeeds and extraction yields an array with as
many (non-`null`) items as there are requested subtopics, the report's
`subtopicAnalysis` has that length and `overallScore` is the rounded
arithmetic mean of its normalized coverage scores. -/
theorem C4_success_rounded_mean (o : LLMOracles) (transcript : Str)
    (subtopics : List Str) (provider : Str) (resp : Str) (items : JsonList)
    (hc : callLLM o provider (analyzeMessages transcript subtopics) 2000 = .ok resp)
    (hx : extractJson resp = .arr items)
    (hnn : ∀ j ∈ items.toList, jsIsNull j = false)
    (hlen : items.toList.length = subtopics.length)
    (hne : subtopics ≠ []) :
    (analyzeCoverage o transcript subtopics provider).subtopicAnalysis.length
      = subtopics.length ∧
    (analyzeCoverage o transcript subtopics provider).overallScore
      = .int (jsRound
          (sumScores (analyzeCoverage o transcript subtopics provider).subtopicAnalysis)
          subtopics.length) := by
  have hL : (items.toList.map normBody).length = subtopics.length := by
    rw [List.length_map, hlen]
  have hnz : ¬((items.toList.map normBody).length = 0) := by
    rw [hL]
    intro h0
    exact hne (List.length_eq_zero.mp h0)
  unfold analyzeCoverage analyzeBody
  rw [hc]
  dsimp only
  rw [hx]
  dsimp only
  rw [mapNorm_of_no_null _ hnn]
  dsimp only
  rw [if_neg hnz]
  exact ⟨hL, by rw [hL]⟩

/-- C4 (witness): the spec's end-to-end example — two items scored 80 and 60
give `overallScore = 70` with both items covered. -/
theorem C4_success_rounded_mean_witness :
    ((analyzeCoverage
        (constOracles (.ok "[\x7b\"subtopic\":\"light reactions\",\"coverageScore\":80,\"evidence\":\"ok\"\x7d,\x7b\"subtopic\":\"energy conversion\",\"coverageScore\":60,\"evidence\":\"ok\"\x7d]".data))
        "Photosynthesis converts light to energy.".data
        ["light reactions".data, "energy conversion".data] "groq".data).subtopicAnalysis.length
      = (["light reactions".data, "energy conversion".data] : List Str).length ∧
    (analyzeCoverage
        (constOracles (.ok "[\x7b\"subtopic\":\"light reactions\",\"coverageScore\":80,\"evidence\":\"ok\"\x7d,\x7b\"subtopic\":\"energy conversion\",\"coverageScore\":60,\"evidence\":\"ok\"\x7d]".data))
        "Photosynthesis converts light to energy.".data
        ["light reactions".data, "energy conversion".data] "groq".data).overallScore
      = .int (jsRound
          (sumScores (analyzeCoverage
            (constOracles (.ok "[\x7b\"subtopic\":\"light reactions\",\"coverageScore\":80,\"evidence\":\"ok\"\x7d,\x7b\"subtopic\":\"energy conversion\",\"coverageScore\":60,\"evidence\":\"ok\"\x7d]".data))
            "Photosynthesis converts light to energy.".data
            ["light reactions".data, "energy conversion".data] "groq".data).subtopicAnalysis)
          (["light reactions".data, "energy conversion".data] : List Str).length)) ∧
    (analyzeCoverage
        (constOracles (.ok "[\x7b\"subtopic\":\"light reactions\",\"coverageScore\":80,\"evidence\":\"ok\"\x7d,\x7b\"subtopic\":\"energy conversion\",\"coverageScore\":60,\"evidence\":\"ok\"\x7d]".data))
        "Photosynthesis converts light to energy.".data
        ["light reactions".data, "energy conversion".data] "groq".data).overallScore
      = .int 70 ∧
    (analyzeCoverage
        (constOracles (.ok "[\x7b\"subtopic\":\"light reactions\",\"coverageScore\":80,\"evidence\":\"ok\"\x7d,\x7b\"subtopic\":\"energy conversion\",\"coverageScore\":60,\"evidence\":\"ok\"\x7d]".data))
        "Photosynthesis converts light to energy.".data
        ["light reactions".data, "energy conversion".data] "groq".data).subtopicAnalysis.map
          (fun it => it.covered)
      = [true, true] :=
  by
  have h := C4_success_rounded_mean
    (constOracles (.ok "[\x7b\"subtopic\":\"light reactions\",\"coverageScore\":80,\"evidence\":\"ok\"\x7d,\x7b\"subtopic\":\"energy conversion\",\"coverageScore\":60,\"evidence\":\"ok\"\x7d]".data))
    "Photosynthesis converts light to energy.".data
    ["light reactions".data, "energy conversion".data] "groq".data
    "[\x7b\"subtopic\":\"light reactions\",\"coverageScore\":80,\"evidence\":\"ok\"\x7d,\x7b\"subtopic\":\"energy conversion\",\"coverageScore\":60,\"evidence\":\"ok\"\x7d]".data
    (.cons (.obj (.cons "subtopic".data (.str "light reactions".data)
        (.cons "coverageScore".data (.num 80)
          (.cons "evidence".data (.str "ok".data) .nil))))
      (.cons (.obj (.cons "subtopic".data (.str "energy conversion".data)
        (.cons "coverageScore".data (.num 60)
          (.cons "evidence".data (.str "ok".data) .nil)))) .nil))
    (by rfl) (by rfl) (by decide) (by rfl) (by simp)
  refine ⟨⟨h.1, h.2⟩, ?_, ?_⟩
  · rfl
  · rfl

theorem mapNorm_some_eq : ∀ (l : List Json) (n : List CoverageItem),
    mapNorm l = some n → n = l.map normBody := by
  intro l
  induction l with
  | nil =>
    intro n h
    rw [mapNorm] at h
    exact (Option.some.inj h).symm
  | cons j rest ih =>
    intro n h
    rw [mapNorm] at h
    cases hni : normalizeItem j with
    | none => rw [hni] at h; exact absurd h (by simp)
    | some it =>
      rw [hni] at h
      cases hmr : mapNorm rest with
      | none => rw [hmr] at h; exact absurd h (by simp)
      | some l2 =>
        rw [hmr] at h
        have hit : it = normBody j := by
          rw [normalizeItem] at hni
          cases hj : jsIsNull j with
          | true => rw [hj] at hni; exact absurd hni (by simp)
          | false =>
            rw [hj] at hni
            exact (Option.some.inj hni).symm
        rw [← (Option.some.inj h), hit, ih l2 hmr, List.map_cons]

theorem analysis_shape (o : LLMOracles) (t : Str) (subs : List Str) (prov : Str) :
    (∃ l : List Json,
      (analyzeCoverage o t subs prov).subtopicAnalysis = l.map normBody) ∨
    (analyzeCoverage o t subs prov).subtopicAnalysis = subs.map failItem := by
  unfold analyzeCoverage analyzeBody
  cases hc : callLLM o prov (analyzeMessages t subs) 2000 with
  | error e => right; rfl
  | ok resp =>
    dsimp only
    cases hx : extractJson resp with
    | arr items =>
      dsimp only
      cases hm : mapNorm items.toList with
      | none => right; rfl
      | some normalized =>
        left
        refine ⟨items.toList, ?_⟩
        dsimp only
        exact mapNorm_some_eq _ _ hm
    | null => right; rfl
    | bool b => right; rfl
    | num n => right; rfl
    | str s => right; rfl
    | obj fs => right; rfl

theorem normBody_invariant (j : Json) :
    (0 ≤ (normBody j).coverageScore ∧ (normBody j).coverageScore ≤ 100) ∧
    ((normBody j).covered = true ↔ 50 ≤ (normBody j).coverageScore) ∧
    ((normBody j).evidence = .str "No evidence provided.".data ∨
     (normBody j).evidence = .str "Failed to generate coverage analysis.".data ∨
     jsTruthy (normBody j).evidence = true) := by
  unfold normBody
  dsimp only
  refine ⟨⟨?_, ?_⟩, ?_, ?_⟩
  · exact le_min (le_max_right _ _) (by norm_num)
  · exact min_le_right _ _
  · constructor
    · intro hcov
      have h50 : (50 : Int) ≤ (jsParseIntJson (jsGetField j "coverageScore".data)).getD 0 :=
        of_decide_eq_true hcov
      exact le_min (le_trans h50 (le_max_left _ _)) (by norm_num)
    · intro hsc
      apply decide_eq_true
      by_contra hlt
      push_neg at hlt
      have hmax : max ((jsParseIntJson (jsGetField j "coverageScore".data)).getD 0) 0 < 50 :=
        max_lt hlt (by norm_num)
      have hmin : min (max ((jsParseIntJson (jsGetField j "coverageScore".data)).getD 0) 0) 100 < 50 :=
        lt_of_le_of_lt (min_le_left _ _) hmax
      exact absurd hsc (not_le.mpr hmin)
  · cases hf : jsGetField j "evidence".data with
    | none => left; rfl
    | some e =>
      dsimp only
      cases ht : jsTruthy e with
      | true =>
        right; right
        rw [if_pos rfl]
        exact ht
      | false =>
        left
        rw [if_neg Bool.false_ne_true]

/-- C5 (amended): every CoverageItem `analyzeCoverage` produces, on the
success and on the failure path, has an integer `coverageScore` in `[0,100]`
(JavaScript `parseInt` of the raw value's string conversion, `NaN` becoming
0, then clamped), `covered` exactly when `coverageScore ≥ 50`, and an
`evidence` that is either one of the two fixed placeholder strings or the
truthy LLM-supplied value (a string whenever the LLM supplied a non-empty
string). -/
theorem C5_item_invariants_amended (o : LLMOracles) (transcript : Str)
    (subtopics : List Str) (provider : Str) (it : CoverageItem)
    (hmem : it ∈ (analyzeCoverage o transcript subtopics provider).subtopicAnalysis) :
    (0 ≤ it.coverageScore ∧ it.coverageScore ≤ 100) ∧
    (it.covered = true ↔ 50 ≤ it.coverageScore) ∧
    (it.evidence = .str "No evidence provided.".data ∨
     it.evidence = .str "Failed to generate coverage analysis.".data ∨
     jsTruthy it.evidence = true) := by
  rcases analysis_shape o transcript subtopics provider with ⟨l, hl⟩ | hl
  · rw [hl] at hmem
    rcases List.mem_map.mp hmem with ⟨j, _, hj⟩
    rw [← hj]
    exact normBody_invariant j
  · rw [hl] at hmem
    rcases List.mem_map.mp hmem with ⟨s, _, hs⟩
    rw [← hs]
    refine ⟨⟨le_refl 0, by norm_num [failItem]⟩, ?_, Or.inr (Or.inl rfl)⟩
    constructor
    · intro h
      exact absurd h (by simp [failItem])
    · intro h
      exact absurd h (by norm_num [failItem])

/-- C5 (witness): the amended invariants at the counterexample item (score
raw `["60"]`, evidence `7`). -/
theorem C5_item_invariants_amended_witness :
    ((0 : Int) ≤ (60 : Int) ∧ (60 : Int) ≤ (100 : Int)) ∧
    (true = true ↔ (50 : Int) ≤ (60 : Int)) ∧
    (Json.num 7 = .str "No evidence provided.".data ∨
     Json.num 7 = .str "Failed to generate coverage analysis.".data ∨
     jsTruthy (Json.num 7) = true) := by
  have h := C5_item_invariants_amended
    (constOracles (.ok "[\x7b\"subtopic\":\"a\",\"coverageScore\":[\"60\"],\"evidence\":7\x7d]".data))
    "t".data ["a".data] "groq".data
    ⟨some (.str "a".data), 60, true, .num 7⟩
    (by
      rw [show (analyzeCoverage
          (constOracles (.ok "[\x7b\"subtopic\":\"a\",\"coverageScore\":[\"60\"],\"evidence\":7\x7d]".data))
          "t".data ["a".data] "groq".data).subtopicAnalysis
        = [⟨some (.str "a".data), 60, true, .num 7⟩] from rfl]
      exact List.mem_singleton_self _)
  exact h

theorem altStartAt_succ (c : Char) (cs : Str) (i : Nat) :
    altStartAt (c :: cs) (i + 1) = altStartAt cs i := by
  unfold altStartAt
  rw [List.getD_cons_succ, List.drop_succ_cons]

theorem buildMatchAt_succ (c : Char) (cs : Str) (i : Nat) :
    buildMatchAt (c :: cs) (i + 1) = buildMatchAt cs i := by
  unfold buildMatchAt
  rw [List.drop_succ_cons]

theorem bracketSearch_eq_spec : ∀ s : Str, bracketSearch s = regexSearchSpec s := by
  intro s
  induction s with
  | nil => rfl
  | cons c cs ih =>
    have hzero : altStartAt (c :: cs) 0
        = ((c == '\x7b' && cs.contains '\x7d') || (c == '[' && cs.contains ']')) := rfl
    by_cases hb : (c == '\x7b' && cs.contains '\x7d') = true
    · rw [bracketSearch, if_pos hb]
      have h0 : altStartAt (c :: cs) 0 = true := by rw [hzero, hb, Bool.true_or]
      rw [regexSearchSpec, List.length_cons, List.range_succ_eq_map,
        List.find?_cons_of_pos _ h0]
      have hc : c = '\x7b' := by
        have := (Bool.and_eq_true _ _).mp hb
        simpa using this.1
      subst hc
      rfl
    · by_cases hk : (c == '[' && cs.contains ']') = true
      · rw [bracketSearch, if_neg hb, if_pos hk]
        have h0 : altStartAt (c :: cs) 0 = true := by
          rw [hzero, hk, Bool.or_true]
        rw [regexSearchSpec, List.length_cons, List.range_succ_eq_map,
          List.find?_cons_of_pos _ h0]
        have hc : c = '[' := by
          have := (Bool.and_eq_true _ _).mp hk
          simpa using this.1
        subst hc
        rfl
      · rw [bracketSearch, if_neg hb, if_neg hk, ih]
        have h0 : ¬ altStartAt (c :: cs) 0 = true := by
          rw [hzero, eq_false_of_ne_true hb, eq_false_of_ne_true hk]
          simp
        have hp : (fun i => altStartAt (c :: cs) (i + 1)) = (fun i => altStartAt cs i) :=
          funext (fun i => altStartAt_succ c cs i)
        have hbm : (fun i => buildMatchAt (c :: cs) (i + 1)) = (fun i => buildMatchAt cs i) :=
          funext (fun i => buildMatchAt_succ c cs i)
        symm
        unfold regexSearchSpec
        rw [List.length_cons, List.range_succ_eq_map, List.find?_cons_of_neg _ h0,
          List.find?_map, Option.map_map]
        simp only [Function.comp_def]
        rw [hp, hbm]

/-- C7 (amended): `extractJson` behaves as the claim describes — strip the
fence markers, attempt a direct parse, fall back to the regex-selected
bracket substring, return the empty array when everything fails, never throw
— where the fallback substring starts at the earliest position at which an
opening bracket is followed by a later closing bracket of the same kind
(object alternative preferred) and runs to the last such closing bracket,
rather than from the first `{`/`[` to the last `}`/`]` of either kind. -/
theorem C7_extractJson_amended : ∀ s : Str, extractJson s = extractJsonAmended s := by
  intro s
  unfold extractJson extractJsonAmended
  simp only [bracketSearch_eq_spec]

theorem removeAllAux_fuel (pat : List Char) :
    ∀ (f g : Nat) (s : Str), s.length ≤ f → s.length ≤ g →
      removeAllAux pat f s = removeAllAux pat g s := by
  intro f
  induction f with
  | zero =>
    intro g s hf _
    have hs : s = [] := List.length_eq_zero.mp (Nat.le_zero.mp hf)
    subst hs
    cases g <;> rfl
  | succ f ih =>
    intro g s hf hg
    cases s with
    | nil => cases g <;> rfl
    | cons c cs =>
      cases g with
      | zero => exact absurd hg (by simp)
      | succ g' =>
        have hf' : cs.length ≤ f := by
          rw [List.length_cons] at hf
          omega
        have hg' : cs.length ≤ g' := by
          rw [List.length_cons] at hg
          omega
        show (if matchesCI pat (c :: cs) then removeAllAux pat f (cs.drop (pat.length - 1))
              else c :: removeAllAux pat f cs)
           = (if matchesCI pat (c :: cs) then removeAllAux pat g' (cs.drop (pat.length - 1))
              else c :: removeAllAux pat g' cs)
        by_cases hm : matchesCI pat (c :: cs) = true
        · rw [if_pos hm, if_pos hm]
          exact ih g' (cs.drop (pat.length - 1))
            (by rw [List.length_drop]; omega) (by rw [List.length_drop]; omega)
        · rw [if_neg hm, if_neg hm]
          rw [ih g' cs hf' hg']

theorem removeAll_cons_pos (pat : List Char) (c : Char) (cs : Str)
    (h : matchesCI pat (c :: cs) = true) :
    removeAll pat (c :: cs) = removeAll pat (cs.drop (pat.length - 1)) := by
  show (if matchesCI pat (c :: cs) then removeAllAux pat cs.length (cs.drop (pat.length - 1))
        else c :: removeAllAux pat cs.length cs)
     = removeAllAux pat (cs.drop (pat.length - 1)).length (cs.drop (pat.length - 1))
  rw [if_pos h]
  exact removeAllAux_fuel pat cs.length (cs.drop (pat.length - 1)).length
    (cs.drop (pat.length - 1)) (by rw [List.length_drop]; omega) le_rfl

theorem removeAll_cons_neg (pat : List Char) (c : Char) (cs : Str)
    (h : matchesCI pat (c :: cs) = false) :
    removeAll pat (c :: cs) = c :: removeAll pat cs := by
  show (if matchesCI pat (c :: cs) then removeAllAux pat cs.length (cs.drop (pat.length - 1))
        else c :: removeAllAux pat cs.length cs)
     = c :: removeAllAux pat cs.length cs
  rw [if_neg (by rw [h]; exact Bool.false_ne_true)]

theorem matchesCI_length : ∀ (pat : List Char) (s : Str),
    matchesCI pat s = true → pat.length ≤ s.length := by
  intro pat
  induction pat with
  | nil => intro s _; simp
  | cons p ps ih =>
    intro s hm
    cases s with
    | nil => simp [matchesCI] at hm
    | cons c cs =>
      rw [matchesCI, Bool.and_eq_true] at hm
      simpa using Nat.succ_le_succ (ih cs hm.2)

theorem matchesCI_append : ∀ (pat : List Char) (x r : Str), pat.length ≤ x.length →
    matchesCI pat (x ++ r) = matchesCI pat x := by
  intro pat
  induction pat with
  | nil => intro x r _; rfl
  | cons p ps ih =>
    intro x r hl
    cases x with
    | nil => simp at hl
    | cons c x' =>
      rw [List.cons_append, matchesCI, matchesCI]
      rw [ih x' r (by simpa using hl)]

theorem matchesCI_cross : ∀ (pat : List Char) (d : Char),
    (∀ p ∈ pat, ciEq p d = false) →
    ∀ (x y : Str), matchesCI pat (x ++ d :: y) = true → pat.length ≤ x.length := by
  intro pat
  induction pat with
  | nil => intro d _ x y _; simp
  | cons p ps ih =>
    intro d hd x y hm
    cases x with
    | nil =>
      rw [List.nil_append, matchesCI, Bool.and_eq_true] at hm
      exact absurd hm.1 (by rw [hd p (List.mem_cons_self p ps)]; simp)
    | cons c x' =>
      rw [List.cons_append, matchesCI, Bool.and_eq_true] at hm
      have hps := ih d (fun q hq => hd q (List.mem_cons_of_mem p hq)) x' y hm.2
      simpa using Nat.succ_le_succ hps

theorem removeAll_sep (pat : List Char) (hpat : pat ≠ []) (d : Char)
    (hd : ∀ p ∈ pat, ciEq p d = false) :
    ∀ (a b : Str), removeAll pat (a ++ d :: b) = removeAll pat a ++ d :: removeAll pat b := by
  have hbase : ∀ b : Str, removeAll pat (d :: b) = d :: removeAll pat b := by
    intro b
    apply removeAll_cons_neg
    cases pat with
    | nil => exact absurd rfl hpat
    | cons p ps =>
      rw [matchesCI, hd p (List.mem_cons_self p ps)]
      rfl
  suffices H : ∀ (n : Nat) (a b : Str), a.length ≤ n →
      removeAll pat (a ++ d :: b) = removeAll pat a ++ d :: removeAll pat b by
    intro a b
    exact H a.length a b le_rfl
  intro n
  induction n with
  | zero =>
    intro a b ha
    have ha0 : a = [] := List.length_eq_zero.mp (Nat.le_zero.mp ha)
    subst ha0
    rw [List.nil_append, hbase b]
    rfl
  | succ n ih =>
    intro a b ha
    cases a with
    | nil => rw [List.nil_append, hbase b]; rfl
    | cons c a' =>
      have ha' : a'.length ≤ n := by
        rw [List.length_cons] at ha
        omega
      rw [List.cons_append]
      by_cases hm : matchesCI pat (c :: (a' ++ d :: b)) = true
      · have hx : matchesCI pat ((c :: a') ++ d :: b) = true := hm
        have hle : pat.length ≤ (c :: a').length := matchesCI_cross pat d hd (c :: a') b hx
        have hk : pat.length - 1 ≤ a'.length := by
          rw [List.length_cons] at hle
          omega
        have hm' : matchesCI pat (c :: a') = true := by
          rw [← matchesCI_append pat (c :: a') (d :: b) hle]
          exact hx
        rw [removeAll_cons_pos pat c (a' ++ d :: b) hm]
        rw [removeAll_cons_pos pat c a' hm']
        rw [List.drop_append_of_le_length hk]
        exact ih (a'.drop (pat.length - 1)) b (by rw [List.length_drop]; omega)
      · have hm'' : matchesCI pat (c :: a') = false := by
          cases hmm : matchesCI pat (c :: a') with
          | false => rfl
          | true =>
            have hext : matchesCI pat ((c :: a') ++ (d :: b)) = true := by
              rw [matchesCI_append pat (c :: a') (d :: b) (matchesCI_length pat (c :: a') hmm)]
              exact hmm
            exact absurd hext hm
        rw [removeAll_cons_neg pat c (a' ++ d :: b) (eq_false_of_ne_true hm)]
        rw [removeAll_cons_neg pat c a' hm'']
        rw [ih a' b ha']
        rfl

theorem jsTrim_cons_ws (c : Char) (h : isJsSpace c = true) (s : Str) :
    jsTrim (c :: s) = jsTrim s := by
  unfold jsTrim
  rw [List.dropWhile_cons, h]
  rw [if_pos rfl]

theorem dropWhile_append_not_all (p : Char → Bool) :
    ∀ (s r : Str), (¬ ∀ x ∈ s, p x = true) →
      (s ++ r).dropWhile p = s.dropWhile p ++ r := by
  intro s
  induction s with
  | nil => intro r hna; exact absurd (by simp) hna
  | cons a s' ih =>
    intro r hna
    rw [List.cons_append, List.dropWhile_cons, List.dropWhile_cons]
    cases hpa : p a with
    | true =>
      rw [if_pos rfl, if_pos rfl]
      apply ih
      intro hall
      exact hna (fun x hx => by
        rcases List.mem_cons.mp hx with h1 | h1
        · rw [h1]; exact hpa
        · exact hall x h1)
    | false =>
      rw [if_neg Bool.false_ne_true, if_neg Bool.false_ne_true]
      rfl

theorem jsTrim_append_ws (c : Char) (h : isJsSpace c = true) (s : Str) :
    jsTrim (s ++ [c]) = jsTrim s := by
  unfold jsTrim
  by_cases hall : ∀ x ∈ s, isJsSpace x = true
  · have h1 : s.dropWhile isJsSpace = [] := List.dropWhile_eq_nil_iff.mpr hall
    have h2 : (s ++ [c]).dropWhile isJsSpace = [] := by
      rw [List.dropWhile_eq_nil_iff]
      intro x hx
      rcases List.mem_append.mp hx with hx1 | hx2
      · exact hall x hx1
      · rw [List.mem_singleton.mp hx2]; exact h
    rw [h1, h2]
  · rw [dropWhile_append_not_all isJsSpace s [c] hall]
    rw [List.reverse_append]
    rw [show ([c] : Str).reverse = [c] from rfl, List.singleton_append]
    rw [List.dropWhile_cons, h]
    rw [if_pos rfl]

theorem cleanText_wrap (s : Str) : cleanText (wrapFences s) = cleanText s := by
  have hd1 : ∀ p ∈ "```json".data, ciEq p '\n' = false := by decide
  have hd2 : ∀ p ∈ "```".data, ciEq p '\n' = false := by decide
  have hnp1 : "```json".data ≠ ([] : Str) := by decide
  have hnp2 : "```".data ≠ ([] : Str) := by decide
  have hbase2 : ∀ X : Str,
      removeAll "```".data ('\n' :: X) = '\n' :: removeAll "```".data X := by
    intro X
    have hs := removeAll_sep "```".data hnp2 '\n' hd2 [] X
    simpa using hs
  have hshape : wrapFences s = "```json".data ++ '\n' :: (s ++ '\n' :: "```".data) := rfl
  unfold cleanText
  rw [hshape]
  rw [removeAll_sep "```json".data hnp1 '\n' hd1 "```json".data (s ++ '\n' :: "```".data)]
  rw [show removeAll "```json".data "```json".data = ([] : Str) from by decide]
  rw [removeAll_sep "```json".data hnp1 '\n' hd1 s "```".data]
  rw [show removeAll "```json".data "```".data = "```".data from by decide]
  rw [List.nil_append]
  rw [hbase2]
  rw [removeAll_sep "```".data hnp2 '\n' hd2 (removeAll "```json".data s) "```".data]
  rw [show removeAll "```".data "```".data = ([] : Str) from by decide]
  rw [jsTrim_cons_ws '\n' (by decide)]
  rw [jsTrim_append_ws '\n' (by decide)]

theorem extractJson_wrap (s : Str) : extractJson (wrapFences s) = extractJson s := by
  cases s with
  | nil => rfl
  | cons c cs =>
    unfold extractJson
    simp only [cleanText_wrap]
    rw [show (wrapFences (c :: cs)).isEmpty = false from rfl]
    rw [show ((c :: cs : Str)).isEmpty = false from rfl]

/-- C6: wrapping a JSON-parseable response in Markdown code fences
(```` ```json ```` before, ```` ``` ```` after) does not change what
`extractJson` yields. -/
theorem C6_extractJson_fences_invariant (s : Str) (v : Json)
    (h : jsonParse s = some v) :
    extractJson (wrapFences s) = extractJson s :=
  extractJson_wrap s

/-- C6 (witness): the invariant applied to the parseable response `[1]`. -/
theorem C6_extractJson_fences_invariant_witness :
    jsonParse "[1]".data = some (.arr (.cons (.num 1) .nil)) ∧
    extractJson (wrapFences "[1]".data) = extractJson "[1]".data :=
  ⟨by rfl,
   C6_extractJson_fences_invariant "[1]".data (.arr (.cons (.num 1) .nil)) (by rfl)⟩
